import Mathlib

/-!
Verification of the GeoDora country-facts application (src/app.py).

The numeric-extraction, formatting, aggregation, quiz-generation and
session-tracking logic of `app.py` is embedded shallowly below:

* Python floats are modelled as exact rationals (`ℚ`); no claim below
  depends on binary floating-point rounding.
* SQL `NULL` and the empty string are both rejected by every filter of
  the source (`IS NOT NULL AND != ''`), so nullable text columns are
  modelled as `String` with `""` standing for NULL/missing.
* Randomness (`ORDER BY RANDOM() LIMIT k`, `random.shuffle`,
  `random.choice`) is modelled by passing the drawn rows / permutations
  as explicit parameters, constrained by the hypotheses the SQL query
  guarantees (e.g. membership in the filtered candidate set).
-/

/-- A loosely-typed Python value as accepted by the template filters of
`app.py` (`None`, `str`, `int`, `float`). -/
inductive Value where
  | vnone : Value
  | vstr (s : String) : Value
  | vint (n : ℤ) : Value
  | vfloat (q : ℚ) : Value
deriving DecidableEq, Repr

/-- Numeric value of a list of decimal digit characters (most significant
first), as produced by `float` on a digit string. -/
def digitsVal (ds : List Char) : ℕ :=
  ds.foldl (fun a c => a * 10 + (c.toNat - '0'.toNat)) 0

/-- Value of a decimal literal with integer digits `d1` and fractional
digits `d2` (`float("d1.d2")` = d1 + d2 / 10 ^ |d2|, built with `mkRat` so
that it evaluates by kernel reduction). -/
def ratOfDigits (d1 d2 : List Char) : ℚ :=
  mkRat (digitsVal d1 * 10 ^ d2.length + digitsVal d2) (10 ^ d2.length)

/-- One match of the regex `\d+\.?\d*` from `app.py`: a maximal digit run,
an optional dot, and the following (possibly empty) digit run. -/
structure NumToken where
  intDigits : List Char
  hasDot : Bool
  fracDigits : List Char
deriving DecidableEq, Repr

/-- The exact characters the token matched in the input. -/
def NumToken.chars (t : NumToken) : List Char :=
  t.intDigits ++ (if t.hasDot then ['.'] else []) ++ t.fracDigits

/-- Numeric value of a token (`float(numbers[0])` in `app.py`; note
`float("12.")` is `12.0`). -/
def NumToken.val (t : NumToken) : ℚ :=
  ratOfDigits t.intDigits t.fracDigits

/-- First match of `re.findall(r'\d+\.?\d*', s)` (src/app.py:104): scan left
to right for the first digit, take the maximal digit run, then an optional
dot followed by a maximal digit run. -/
def firstNumberToken : List Char → Option NumToken
  | [] => none
  | c :: cs =>
    if c.isDigit then
      let d1 := (c :: cs).takeWhile Char.isDigit
      match (c :: cs).dropWhile Char.isDigit with
      | '.' :: r2 => some ⟨d1, true, r2.takeWhile Char.isDigit⟩
      | _ => some ⟨d1, false, []⟩
    else firstNumberToken cs

/-- Model of `extract_number` (src/app.py:95-109): `None`/`""` give `0`; numbers are
returned as floats; for text, the first `\d+\.?\d*` match is parsed, and `0`
is returned when there is none. Total: no branch can raise. -/
def extract_number : Value → ℚ
  | .vnone => 0
  | .vstr s =>
    if s = "" then 0
    else
      match firstNumberToken s.data with
      | some t => t.val
      | none => 0
  | .vint n => (n : ℚ)
  | .vfloat q => q

/-! ## Rendering helpers (Python `format` specs on small exact values) -/

/-- Insert a comma before every third digit counted from the right;
the input is the reversed digit list, `i` digits already emitted. -/
def commaRev : List Char → ℕ → List Char
  | [], _ => []
  | d :: ds, i =>
    (if 0 < i ∧ i % 3 = 0 then [','] else []) ++ d :: commaRev ds (i + 1)

/-- Python `f"{n:,}"` for a natural number: decimal digits with thousands commas. -/
def renderNatComma (n : ℕ) : String :=
  ⟨(commaRev (Nat.toDigits 10 n).reverse 0).reverse⟩

/-- Python `f"{m:,}"` for an integer. -/
def renderIntComma (m : ℤ) : String :=
  (if m < 0 then "-" else "") ++ renderNatComma m.natAbs

/-- Round to the nearest integer, ties to even — the rounding applied by
Python's fixed-point `format` specs on our exact values. `f` is the floor
of `q` and `r2` is twice the numerator of the fractional part `q - f`, so
the comparisons of `r2` with the denominator compare `q - f` with `1/2`
using only integer arithmetic (which kernel-reduces). -/
def roundHalfEven (q : ℚ) : ℤ :=
  let f : ℤ := q.num.fdiv (q.den : ℤ)
  let r2 : ℤ := 2 * (q.num - f * (q.den : ℤ))
  if r2 < (q.den : ℤ) then f
  else if (q.den : ℤ) < r2 then f + 1
  else if f % 2 = 0 then f else f + 1

/-- Python `f"{q:,.0f}"`: round to an integer, render with thousands commas. -/
def renderComma0 (q : ℚ) : String :=
  let m := roundHalfEven q
  (if m < 0 then "-" else "") ++ renderNatComma m.natAbs

/-- Exact product of a rational with the ratio `a / b` of two naturals
(built with `mkRat` so that it evaluates by kernel reduction). -/
def ratScale (q : ℚ) (a b : ℕ) : ℚ :=
  mkRat (q.num * a) (q.den * b)

/-- Python `f"{q:,.1f}"`: round to one decimal place (ties to even), render the
integer part with thousands commas and append the tenths digit. -/
def renderFloat1 (q : ℚ) : String :=
  let m := roundHalfEven (ratScale q 10 1)
  (if m < 0 then "-" else "") ++ renderNatComma (m.natAbs / 10) ++ "." ++
    ⟨[Nat.digitChar (m.natAbs % 10)]⟩

/-! ## Formatters -/

/-- The characters kept by `re.sub(r'[^\d.]', '', value)` in `format_int`
(src/app.py:29): every digit and every dot, concatenated. -/
def cleanedDigitsDots (s : String) : List Char :=
  s.data.filter (fun c => c.isDigit || c == '.')

/-- Python `float()` on a string of digits and dots: defined iff there is
at least one digit and at most one dot; `none` models the `ValueError`. -/
def parsePyFloat (cs : List Char) : Option ℚ :=
  if cs.any Char.isDigit ∧ (cs.filter (fun c => c == '.')).length ≤ 1 ∧
      cs.all (fun c => c.isDigit || c == '.') then
    some (ratOfDigits (cs.takeWhile Char.isDigit)
      ((cs.dropWhile Char.isDigit).drop 1))
  else none

/-- The numeric magnitude `format_int` computes for a text input — the `num`
variable of src/app.py:32: `float` of the digit/dot characters; `none` when
the cleaned string is empty or `float` raises (both fall back to echoing the
input). -/
def format_int_num (s : String) : Option ℚ :=
  let cleaned := cleanedDigitsDots s
  if cleaned ≠ [] then parsePyFloat cleaned else none

/-- Model of `format_int` (src/app.py:18-48): `None`/`""` give `"N/A"`; text is
cleaned to its digit/dot characters and parsed (echoing the input on
failure); integral magnitudes render with commas and fractional ones with
one decimal place. -/
def format_int : Value → String
  | .vnone => "N/A"
  | .vstr s =>
    if s = "" then "N/A"
    else
      match format_int_num s with
      | some num => if num.den = 1 then renderIntComma num.num else renderFloat1 num
      | none => s
  | .vint n => renderIntComma n
  | .vfloat q => if q.den = 1 then renderIntComma q.num else renderFloat1 q

/-- The numeric magnitude `format_float` computes for a text input
(src/app.py:58-60): the first `\d+\.?\d*` match — the same scan as
`extract_number` — or `none` when there is no match. -/
def format_float_num (s : String) : Option ℚ :=
  (firstNumberToken s.data).map NumToken.val

/-- Model of `format_float` (src/app.py:50-65): `None`/`""` give `"N/A"`; text is
parsed by the first-number scan (echoing the input when no number is
found); the value renders with commas and one decimal place. -/
def format_float : Value → String
  | .vnone => "N/A"
  | .vstr s =>
    if s = "" then "N/A"
    else
      match format_float_num s with
      | some q => renderFloat1 q
      | none => s
  | .vint n => renderFloat1 (n : ℚ)
  | .vfloat q => renderFloat1 q

/-- Model of `format_population` (src/app.py:327-335): strings go through
`extract_number`, numbers through `float`, then `f"{·:,.0f}"`. -/
def format_population : Value → String
  | .vnone => "N/A"
  | .vstr s => renderComma0 (extract_number (.vstr s))
  | .vint n => renderComma0 (n : ℚ)
  | .vfloat q => renderComma0 q

/-! ## Data model -/

/-- A row of the `countries` table, restricted to the columns the verified
logic reads. Nullable text columns are `String` with `""` for NULL (every
filter in the source treats the two alike). Presentation-only columns
(flag, currency, languages, ...) are omitted where no claim reads them. -/
structure Country where
  name : String
  capital : String
  region : String
  population : String
  area : String
deriving DecidableEq, Repr

/-! ## Aggregator (`calculate_comparisons`, src/app.py:295-325) -/

/-- Result dictionary of `calculate_comparisons`: max/min/avg per field.
`min` starts at `float('inf')`, modelled as `⊤ : WithTop ℚ`. -/
structure Comparisons where
  popMax : ℚ
  popMin : WithTop ℚ
  popAvg : ℚ
  areaMax : ℚ
  areaMin : WithTop ℚ
  areaAvg : ℚ
deriving DecidableEq

/-- Value of `country.get('population', 0) or 0` (src/app.py:307): a missing or
empty field is replaced by the integer `0` before extraction. -/
def popValue (c : Country) : Value :=
  if c.population = "" then .vint 0 else .vstr c.population

/-- Value of `country.get('area', 0) or 0` (src/app.py:308). -/
def areaValue (c : Country) : Value :=
  if c.area = "" then .vint 0 else .vstr c.area

/-- The loop of `calculate_comparisons` (src/app.py:306-319): running
max/min per field together with the running totals `total_pop` and
`total_area`. -/
def compLoop (countries : List Country) : Comparisons × ℚ × ℚ :=
  countries.foldl
    (fun st c =>
      let p := extract_number (popValue c)
      let a := extract_number (areaValue c)
      (⟨max st.1.popMax p, min st.1.popMin (p : WithTop ℚ), st.1.popAvg,
        max st.1.areaMax a, min st.1.areaMin (a : WithTop ℚ), st.1.areaAvg⟩,
       st.2.1 + p, st.2.2 + a))
    (⟨0, ⊤, 0, 0, ⊤, 0⟩, 0, 0)

/-- Model of `calculate_comparisons` (src/app.py:295-325): run the loop, then fill
in the averages only when `count > 0` (so the empty input returns the
neutral initial dictionary unchanged). -/
def calculate_comparisons (countries : List Country) : Comparisons :=
  let st := compLoop countries
  let count := countries.length
  if 0 < count then
    ⟨st.1.popMax, st.1.popMin, st.2.1 / (count : ℚ),
     st.1.areaMax, st.1.areaMin, st.2.2 / (count : ℚ)⟩
  else st.1

/-! ## Quiz generator (`quiz`, src/app.py:567-723) -/

/-- An emitted quiz question: the fields the claims read (`country`,
`correct_answer`, `options`; presentation fields like `flag` and the
question text are omitted). The decoys of a question are its options
minus one occurrence of the correct answer. -/
structure QuizQuestion where
  country : String
  correct_answer : String
  options : List String
deriving DecidableEq, Repr

/-- The decoy options of an emitted question: every option except (one
occurrence of) the correct answer. -/
def decoys (q : QuizQuestion) : List String :=
  q.options.erase q.correct_answer

/-- The candidate pool of a decoy query such as
`SELECT capital FROM countries WHERE capital != ? AND capital IS NOT NULL
AND capital != ''` (src/app.py:593-597): all values of the column that
differ from the correct answer and are non-empty. `ORDER BY RANDOM()
LIMIT 3` then draws `min 3 (pool length)` rows from this pool; the drawn
rows are passed to the question builders as explicit parameters. -/
def sqlWrongValues (pool : List String) (correct : String) : List String :=
  pool.filter (fun v => v != correct && v != "")

/-- Decoy candidates for a capitals question: the other capitals
(src/app.py:593-597). -/
def wrongCapitals (recs : List Country) (correct : String) : List String :=
  sqlWrongValues (recs.map Country.capital) correct

/-- One question of the capitals quiz (src/app.py:599-607): options are
the correct capital followed by the drawn wrong capitals, then shuffled
(`σ` is the permutation drawn by `random.shuffle`). The question is
emitted unconditionally — the source never checks how many wrong answers
the `LIMIT 3` query returned. -/
def mkCapitalQuestion (σ : List String → List String) (q : Country)
    (wrongs : List String) : QuizQuestion :=
  ⟨q.name, q.capital, σ (q.capital :: wrongs)⟩

/-- The capitals-quiz loop (src/app.py:591-607): one question per sampled
subject record, no skipping. `wrongsFor` gives the rows the decoy query
returned for each subject. -/
def capitalsQuizData (σ : List String → List String) (subjects : List Country)
    (wrongsFor : Country → List String) : List QuizQuestion :=
  subjects.map (fun q => mkCapitalQuestion σ q (wrongsFor q))

/-- Python `int()` on an exact rational: truncation toward zero. -/
def pyInt (q : ℚ) : ℤ :=
  Int.tdiv q.num (q.den : ℤ)

/-- The four options of a general-knowledge population question
(src/app.py:679-687): the formatted extracted population and the
formatted truncations of its 0.5×, 2× and 0.8× scalings. The scale
factors are modelled as exact rationals. -/
def popQuizOptions (popStr : String) : List String :=
  let pop := extract_number (.vstr popStr)
  [format_population (.vfloat pop),
   format_population (.vint (pyInt (ratScale pop 1 2))),
   format_population (.vint (pyInt (ratScale pop 2 1))),
   format_population (.vint (pyInt (ratScale pop 4 5)))]

/-- A general-knowledge population question (src/app.py:679-716): the
options are shuffled (`σ1`), the correct answer is redefined as the first
option after that shuffle, and the options are shuffled again (`σ2`)
before the question is emitted. -/
def mkPopulationQuestion (σ1 σ2 : List String → List String)
    (cname popStr : String) : QuizQuestion :=
  let options1 := σ1 (popQuizOptions popStr)
  let correct := options1.headD ""
  ⟨cname, correct, σ2 options1⟩

/-! ## Top-N ranking (`statistics`, src/app.py:764-812) -/

/-- An entry of the `top_populous` list (src/app.py:780-787): the record
plus its extracted magnitude. -/
structure StatEntry where
  name : String
  flag : String
  population : String
  population_num : ℚ
deriving DecidableEq, Repr

/-- Model of `top_populous.sort(key=lambda x: x['population_num'], reverse=True)`
(src/app.py:790): Python's `list.sort` is a stable sort, and with
`reverse=True` it is a stable sort into descending key order; a stable
descending sort is uniquely determined by its order and stability, so it
is modelled by insertion sort under the relation "key of the left is at
least the key of the right". -/
def pyKeySortDesc {α : Type} (key : α → ℚ) (l : List α) : List α :=
  List.insertionSort (fun a b => key b ≤ key a) l

/-- Building the ranking input (src/app.py:772-787): records with a
non-empty population, each with its extracted magnitude, in SQL
`ORDER BY name` order (the order is a parameter of no claim; the list is
taken as given). -/
def statEntries (recs : List Country) : List StatEntry :=
  (recs.filter (fun c => c.population != "")).map
    (fun c => ⟨c.name, "", c.population, extract_number (.vstr c.population)⟩)

/-- Model of `top_populous` (src/app.py:780-791): sort by extracted magnitude
descending, keep the first 10. -/
def topPopulous (recs : List Country) : List StatEntry :=
  (pyKeySortDesc StatEntry.population_num (statEntries recs)).take 10

/-! ## Recently-viewed list (`country`, src/app.py:446-454) -/

/-- Python `l[-n:]`: the last `n` elements (the whole list when it is
shorter). -/
def lastN (n : ℕ) (l : List String) : List String :=
  l.drop (l.length - n)

/-- One visit to a country page (src/app.py:450-454): if the name is
already listed nothing changes; otherwise it is appended and, when the
list now exceeds 10 entries, only the last 10 are kept. -/
def visitCountry (visited : List String) (nm : String) : List String :=
  if nm ∈ visited then visited
  else
    let v := visited ++ [nm]
    if 10 < v.length then lastN 10 v else v

/-- The session list after a sequence of visits, starting from the empty
list the session is initialised with (src/app.py:447-448). -/
def visitedAfter (vs : List String) : List String :=
  vs.foldl visitCountry []

/-- Instrumented visit step: alongside the list, record every name in the
order it was actually appended (the insertion events). -/
def visitStep (st : List String × List String) (nm : String) :
    List String × List String :=
  (visitCountry st.1 nm, if nm ∈ st.1 then st.2 else st.2 ++ [nm])

/-- The full sequence of insertion events of a visit history. -/
def insertEvents (vs : List String) : List String :=
  (vs.foldl visitStep ([], [])).2

/-! ## Concrete record sets used by counterexamples and witnesses -/

/-- A country record with a capital: used to exercise the capitals quiz on
a record set with too few decoy candidates. -/
def andorra : Country :=
  ⟨"Andorra", "Andorra la Vella", "Europe", "", ""⟩

/-- A second country record with a capital. -/
def belgium : Country :=
  ⟨"Belgium", "Brussels", "Europe", "", ""⟩

/-- A record set with exactly two countries that have capitals, so each
subject has exactly one eligible decoy candidate. -/
def recsTwo : List Country :=
  [andorra, belgium]

/-- One possible result of the `ORDER BY RANDOM() LIMIT 3` decoy query
over `recsTwo`: the eligible pool in table order, truncated to 3. -/
def wrongsTake3 (q : Country) : List String :=
  (wrongCapitals recsTwo q.capital).take 3

/-- A twelve-visit history: ten distinct countries, a revisit of the
first, then an eleventh distinct country. -/
def visitsTwelve : List String :=
  ["Argentina", "Bolivia", "Chile", "Denmark", "Egypt", "France",
   "Ghana", "Hungary", "India", "Japan", "Argentina", "Kenya"]

/-! ## Helper lemmas -/

/-- Scanning a digit-free character list finds no number. -/
theorem firstNumberToken_eq_none : ∀ cs : List Char,
    (∀ c ∈ cs, c.isDigit = false) → firstNumberToken cs = none
  | [], _ => rfl
  | c :: cs, h => by
    have hc : c.isDigit = false := h c (List.mem_cons_self c cs)
    rw [firstNumberToken]
    simp only [hc, Bool.false_eq_true, if_false]
    exact firstNumberToken_eq_none cs (fun x hx => h x (List.mem_cons_of_mem c hx))

/-! ## C1 -/

/-- C1 counterexample: on `"1,234 km²"` the Extractor returns `1.0`, not
`1234.0` — the comma terminates the first digit run matched by
`\d+\.?\d*`, so only `"1"` is parsed. -/
theorem extractor_comma_example_claim_false :
    extract_number (.vstr "1,234 km²") ≠ 1234 := by decide

/-- C1 (amended): the Extractor applied to `"1,234 km²"` returns `1.0`
(the first digit run ends at the comma) and applied to the empty string
returns `0`. -/
theorem extractor_comma_example :
    extract_number (.vstr "1,234 km²") = 1 ∧ extract_number (.vstr "") = 0 := by
  exact ⟨by decide, by decide⟩

/-! ## C5 -/

/-- C5: for every text input containing no digit character, the Extractor
returns zero (and, being a total function of the input, raises no
exception on any input). -/
theorem extractor_zero_on_digit_free_text (s : String)
    (h : ∀ c ∈ s.data, c.isDigit = false) :
    extract_number (.vstr s) = 0 := by
  by_cases hs : s = ""
  · simp [extract_number, hs]
  · simp [extract_number, hs, firstNumberToken_eq_none s.data h]

/-- Witness for `extractor_zero_on_digit_free_text` at the digit-free
input `"km² (approx.)"`. -/
theorem extractor_zero_on_digit_free_text_witness :
    (∀ c ∈ ("km² (approx.)" : String).data, c.isDigit = false) ∧
      extract_number (.vstr "km² (approx.)") = 0 :=
  ⟨by decide, extractor_zero_on_digit_free_text "km² (approx.)" (by decide)⟩

/-! ## C7 -/

/-- C7: the Aggregator applied to the empty record set returns a defined
result without failing: the running totals and the record count are zero
and both averages are the (defined) zero of the initial dictionary; the
minima remain at the `float('inf')` sentinel `⊤`. -/
theorem aggregator_defined_on_empty :
    calculate_comparisons [] = ⟨0, ⊤, 0, 0, ⊤, 0⟩ ∧
    (compLoop []).2.1 = 0 ∧ (compLoop []).2.2 = 0 ∧
    ([] : List Country).length = 0 :=
  ⟨rfl, rfl, rfl, rfl⟩

/-! ## C10 -/

/-- C10: both the integer-style and the float-style Formatter return the
fixed string `"N/A"` on `None` and on the empty string. -/
theorem formatters_na_on_none_or_empty :
    format_int .vnone = "N/A" ∧ format_int (.vstr "") = "N/A" ∧
    format_float .vnone = "N/A" ∧ format_float (.vstr "") = "N/A" := by
  refine ⟨rfl, by decide, rfl, by decide⟩

/-! ## C2 -/

/-- C2 counterexample: a possible execution of the general-knowledge quiz
emits a population question whose correct answer also appears among its
three decoys. The subject's population field is the digit-free string
`"unknown"`, so the extracted magnitude is `0` and all four synthesized
options are the string `"0"`; both shuffles drew the identity
permutation. -/
theorem population_question_correct_among_decoys :
    (mkPopulationQuestion id id "Atlantis" "unknown").correct_answer ∈
      decoys (mkPopulationQuestion id id "Atlantis" "unknown") := by decide

/-! ## C3 -/

/-- C3 counterexample: over the two-record set `recsTwo`, each subject has
exactly one eligible decoy candidate (fewer than 3), yet the capitals quiz
still emits a question for both subjects, and the emitted question for the
first subject has exactly one decoy — the source never checks how many
rows the `LIMIT 3` decoy query returned. -/
theorem capitals_quiz_emits_underfilled_question :
    (wrongCapitals recsTwo "Andorra la Vella").length = 1 ∧
    (capitalsQuizData id recsTwo wrongsTake3).length = 2 ∧
    (decoys ((capitalsQuizData id recsTwo wrongsTake3).headD ⟨"", "", []⟩)).length = 1 := by
  decide

/-- C2 (amended): for every question whose decoys are drawn from a value
pool filtered by the SQL predicate `!= correct AND != ''` — the capitals
quiz, the flags quiz and the capital/continent branches of the
general-knowledge quiz — the correct answer never appears among the
decoys, whatever rows the query drew and whatever permutation the shuffle
applied. (The numeric population/area branches synthesize decoys by
scaling instead and can collide with the correct answer.) -/
theorem filtered_decoys_exclude_correct
    (σ : List String → List String) (hσ : ∀ l, List.Perm (σ l) l)
    (q : Country) (pool : List String) (ws : List String)
    (hws : ∀ w ∈ ws, w ∈ sqlWrongValues pool q.capital) :
    q.capital ∉ decoys (mkCapitalQuestion σ q ws) := by
  have hwsne : List.count q.capital ws = 0 := by
    rw [List.count_eq_zero]
    intro hmem
    have h2 := hws _ hmem
    simp [sqlWrongValues, List.mem_filter] at h2
  have hc : List.count q.capital (σ (q.capital :: ws)) = 1 := by
    rw [List.Perm.count_eq (hσ _)]
    simp [hwsne]
  intro hmem
  have h3 : List.count q.capital ((σ (q.capital :: ws)).erase q.capital) = 0 := by
    rw [List.count_erase_self, hc]
  exact (List.count_eq_zero.mp h3) hmem

/-- Witness for `filtered_decoys_exclude_correct`: subject Andorra over
the pool of capitals of `recsTwo`, identity shuffle. -/
theorem filtered_decoys_exclude_correct_witness :
    "Andorra la Vella" ∉ decoys (mkCapitalQuestion id andorra ["Brussels"]) :=
  filtered_decoys_exclude_correct id (fun l => List.Perm.refl l) andorra
    (recsTwo.map Country.capital) ["Brussels"] (by decide)

/-- C3 (amended): the capitals quiz emits one question per sampled subject
regardless of decoy availability, and an emitted question carries
`min 3 (number of eligible decoy candidates)` decoys — exactly 3 when at
least 3 candidates exist, fewer otherwise; no subject is skipped and no
padding occurs. `hw` states what `ORDER BY RANDOM() LIMIT 3` guarantees
about the number of drawn rows. -/
theorem capitals_quiz_count_and_decoys
    (σ : List String → List String) (hσ : ∀ l, List.Perm (σ l) l)
    (recs subjects : List Country) (wrongsFor : Country → List String)
    (hw : ∀ q ∈ subjects,
      (wrongsFor q).length = min 3 (wrongCapitals recs q.capital).length) :
    (capitalsQuizData σ subjects wrongsFor).length = subjects.length ∧
    ∀ q ∈ subjects,
      (decoys (mkCapitalQuestion σ q (wrongsFor q))).length
        = min 3 (wrongCapitals recs q.capital).length := by
  constructor
  · simp [capitalsQuizData]
  · intro q hq
    have hmem : q.capital ∈ σ (q.capital :: wrongsFor q) :=
      (hσ _).mem_iff.mpr (List.mem_cons_self _ _)
    have hlen : (σ (q.capital :: wrongsFor q)).length
        = (wrongsFor q).length + 1 :=
      (hσ _).length_eq
    simp only [decoys, mkCapitalQuestion]
    rw [List.length_erase_of_mem hmem, hlen, hw q hq]
    rfl

/-- Witness for `capitals_quiz_count_and_decoys` on the concrete record
set `recsTwo` with the table-order decoy draw and the identity shuffle. -/
theorem capitals_quiz_count_and_decoys_witness :
    (capitalsQuizData id recsTwo wrongsTake3).length = recsTwo.length ∧
    (decoys (mkCapitalQuestion id andorra (wrongsTake3 andorra))).length
      = min 3 (wrongCapitals recsTwo andorra.capital).length :=
  ⟨(capitals_quiz_count_and_decoys id (fun l => List.Perm.refl l) recsTwo
      recsTwo wrongsTake3 (by decide)).1,
   (capitals_quiz_count_and_decoys id (fun l => List.Perm.refl l) recsTwo
      recsTwo wrongsTake3 (by decide)).2 andorra (by decide)⟩

/-! ## C8 / C9: the recently-viewed list -/

/-- A capped list has at most `n` entries. -/
theorem lastN_length_le (n : ℕ) (l : List String) : (lastN n l).length ≤ n := by
  simp [lastN]
  omega

/-- One visit preserves freedom from duplicates. -/
theorem visitCountry_nodup (l : List String) (nm : String) (h : l.Nodup) :
    (visitCountry l nm).Nodup := by
  by_cases hm : nm ∈ l
  · simpa [visitCountry, hm] using h
  · have happ : (l ++ [nm]).Nodup := by
      rw [List.nodup_append]
      exact ⟨h, List.nodup_singleton nm, List.disjoint_singleton.mpr hm⟩
    show (if nm ∈ l then l
        else if 10 < (l ++ [nm]).length then lastN 10 (l ++ [nm])
        else l ++ [nm]).Nodup
    rw [if_neg hm]
    split
    · exact (List.drop_sublist _ _).nodup happ
    · exact happ

/-- The fold of visits preserves freedom from duplicates. -/
theorem visitFold_nodup : ∀ (vs l : List String), l.Nodup →
    (vs.foldl visitCountry l).Nodup
  | [], _, h => h
  | nm :: vs, l, h => visitFold_nodup vs (visitCountry l nm) (visitCountry_nodup l nm h)

/-- C9: after any sequence of visits the recently-viewed list contains no
duplicate names, and revisiting a name that is currently listed leaves the
list unchanged. -/
theorem visited_list_nodup_and_revisit_noop (vs : List String) :
    (visitedAfter vs).Nodup ∧
    ∀ nm, nm ∈ visitedAfter vs → visitedAfter (vs ++ [nm]) = visitedAfter vs := by
  constructor
  · exact visitFold_nodup vs [] List.nodup_nil
  · intro nm hm
    unfold visitedAfter
    rw [List.foldl_append]
    simp only [List.foldl_cons, List.foldl_nil]
    rw [visitedAfter] at hm
    simp [visitCountry, hm]

/-- Witness for `visited_list_nodup_and_revisit_noop`: the two-visit
history, then a revisit of the still-listed first name. -/
theorem visited_list_nodup_and_revisit_noop_witness :
    (visitedAfter ["France", "Spain"]).Nodup ∧
    visitedAfter (["France", "Spain"] ++ ["France"]) = visitedAfter ["France", "Spain"] :=
  ⟨(visited_list_nodup_and_revisit_noop ["France", "Spain"]).1,
   (visited_list_nodup_and_revisit_noop ["France", "Spain"]).2 "France" (by decide)⟩

/-- One instrumented visit preserves the invariant that the list is the
last ten insertion events. -/
theorem visitStep_lastN (st : List String × List String) (nm : String)
    (h : st.1 = lastN 10 st.2) :
    (visitStep st nm).1 = lastN 10 (visitStep st nm).2 := by
  obtain ⟨l, e⟩ := st
  simp only at h
  subst h
  by_cases hm : nm ∈ lastN 10 e
  · simp [visitStep, visitCountry, hm]
  · show visitCountry (lastN 10 e) nm
        = lastN 10 (if nm ∈ lastN 10 e then e else e ++ [nm])
    rw [if_neg hm]
    show (if nm ∈ lastN 10 e then lastN 10 e
        else if 10 < (lastN 10 e ++ [nm]).length then lastN 10 (lastN 10 e ++ [nm])
        else lastN 10 e ++ [nm]) = lastN 10 (e ++ [nm])
    rw [if_neg hm]
    have hLlen : (lastN 10 e).length = e.length - (e.length - 10) := by
      simp [lastN]
    by_cases h10 : 10 ≤ e.length
    · have hLl : (lastN 10 e).length = 10 := by omega
      have hcond : 10 < (lastN 10 e ++ [nm]).length := by
        rw [List.length_append, hLl, List.length_singleton]
        omega
      rw [if_pos hcond]
      show (lastN 10 e ++ [nm]).drop ((lastN 10 e ++ [nm]).length - 10)
          = (e ++ [nm]).drop ((e ++ [nm]).length - 10)
      have hidx1 : (lastN 10 e ++ [nm]).length - 10 = 1 := by
        rw [List.length_append, hLl, List.length_singleton]
      have hidx2 : (e ++ [nm]).length - 10 = e.length - 9 := by
        rw [List.length_append, List.length_singleton]
        omega
      rw [hidx1, hidx2]
      rw [List.drop_append_of_le_length (by omega),
        List.drop_append_of_le_length (by omega)]
      show (e.drop (e.length - 10)).drop 1 ++ [nm] = e.drop (e.length - 9) ++ [nm]
      rw [List.drop_drop]
      have hi : e.length - 10 + 1 = e.length - 9 := by omega
      rw [hi]
    · have he : lastN 10 e = e := by
        unfold lastN
        have h0 : e.length - 10 = 0 := by omega
        rw [h0, List.drop_zero]
      rw [he]
      have hcond : ¬ 10 < (e ++ [nm]).length := by
        rw [List.length_append, List.length_singleton]
        omega
      rw [if_neg hcond]
      unfold lastN
      have h0 : (e ++ [nm]).length - 10 = 0 := by
        rw [List.length_append, List.length_singleton]
        omega
      rw [h0, List.drop_zero]

/-- The instrumented fold keeps the invariant. -/
theorem visitFold_lastN : ∀ (vs : List String) (st : List String × List String),
    st.1 = lastN 10 st.2 →
    (vs.foldl visitStep st).1 = lastN 10 (vs.foldl visitStep st).2
  | [], _, h => h
  | nm :: vs, st, h => visitFold_lastN vs (visitStep st nm) (visitStep_lastN st nm h)

/-- The first component of the instrumented fold is the plain fold. -/
theorem visitFold_fst : ∀ (vs : List String) (st : List String × List String),
    (vs.foldl visitStep st).1 = vs.foldl visitCountry st.1
  | [], _ => rfl
  | nm :: vs, st => visitFold_fst vs (visitStep st nm)

/-- C8 (amended): after any sequence of visits the recently-viewed list is
exactly the last ten insertion events in insertion order — capped at 10
entries, order of insertion preserved. A visit inserts only when the name
is not currently listed, so a revisit does not refresh a name's position
and the list reflects the ten most recent insertions, not necessarily the
ten most recently visited names. -/
theorem visited_list_is_last_ten_insertions (vs : List String) :
    visitedAfter vs = lastN 10 (insertEvents vs) ∧
    (visitedAfter vs).length ≤ 10 := by
  have h := visitFold_lastN vs ([], []) rfl
  have hf := visitFold_fst vs ([], [])
  have h1 : visitedAfter vs = lastN 10 (insertEvents vs) := by
    rw [visitedAfter, ← hf, insertEvents]
    exact h
  exact ⟨h1, by rw [h1]; exact lastN_length_le _ _⟩

/-- C8 counterexample: in the history `visitsTwelve`, Argentina is
revisited as the second-most-recent visit (more recent than Bolivia's only
visit), yet after the twelfth visit Argentina is absent from the list
while Bolivia is still present — presence does not reflect the most
recent visits. -/
theorem revisited_name_evicted :
    List.indexOf "Argentina" visitsTwelve.reverse
        < List.indexOf "Bolivia" visitsTwelve.reverse ∧
    "Argentina" ∉ visitedAfter visitsTwelve ∧
    "Bolivia" ∈ visitedAfter visitsTwelve := by decide

/-! ## C4: stability of the descending ranking sort -/

/-- Inserting an element that satisfies `p` places it in front of every
other element of the filtered list, provided every element it is inserted
behind fails `p` (which holds when `p` selects one key value and the
skipped elements have strictly greater keys). -/
theorem orderedInsert_filter_pos {α : Type} (r : α → α → Prop) [DecidableRel r]
    (p : α → Bool) (a : α) (l : List α) (hpa : p a = true)
    (himp : ∀ b, ¬ r a b → p b = false) :
    (List.orderedInsert r a l).filter p = a :: l.filter p := by
  induction l with
  | nil => simp [List.orderedInsert, hpa]
  | cons b l ih =>
    by_cases hr : r a b
    · simp [List.orderedInsert, hr, hpa]
    · simp only [List.orderedInsert, if_neg hr, List.filter_cons, himp b hr,
        Bool.false_eq_true, if_false, ih]

/-- Inserting an element that fails `p` leaves the filtered list
unchanged. -/
theorem orderedInsert_filter_neg {α : Type} (r : α → α → Prop) [DecidableRel r]
    (p : α → Bool) (a : α) (l : List α) (hpa : p a = false) :
    (List.orderedInsert r a l).filter p = l.filter p := by
  induction l with
  | nil => simp [List.orderedInsert, hpa]
  | cons b l ih =>
    by_cases hr : r a b
    · simp [List.orderedInsert, hr, hpa]
    · simp only [List.orderedInsert, if_neg hr, List.filter_cons, ih]

/-- Insertion sort is stable: filtering the sorted list by a predicate
that is downward-closed against the skipped elements yields the filtered
input as-is, in the original relative order. -/
theorem insertionSort_filter {α : Type} (r : α → α → Prop) [DecidableRel r]
    (p : α → Bool) (hcomp : ∀ a b, p a = true → ¬ r a b → p b = false) :
    ∀ l : List α, (List.insertionSort r l).filter p = l.filter p
  | [] => rfl
  | a :: l => by
    simp only [List.insertionSort]
    by_cases hpa : p a = true
    · rw [orderedInsert_filter_pos r p a _ hpa (fun b => hcomp a b hpa),
        insertionSort_filter r p hcomp l]
      simp [List.filter_cons, hpa]
    · have hpa' : p a = false := by
        cases hp : p a
        · rfl
        · exact absurd hp hpa
      rw [orderedInsert_filter_neg r p a _ hpa',
        insertionSort_filter r p hcomp l]
      simp [List.filter_cons, hpa']

/-- C4: the Top-N ranking sort (`pyKeySortDesc`, the model of
`top_populous.sort(key=..., reverse=True)`) is a permutation of its
input, is sorted by extracted magnitude descending, and is stable: for
every magnitude `k`, the entries of magnitude `k` appear in the output in
exactly their relative input order, so two records with equal extracted
magnitude never swap. -/
theorem top_ranking_stable_sort (l : List StatEntry) (k : ℚ) :
    List.Perm (pyKeySortDesc StatEntry.population_num l) l ∧
    (pyKeySortDesc StatEntry.population_num l).Sorted
      (fun a b => b.population_num ≤ a.population_num) ∧
    (pyKeySortDesc StatEntry.population_num l).filter
        (fun x => x.population_num == k)
      = l.filter (fun x => x.population_num == k) := by
  refine ⟨List.perm_insertionSort _ l, ?_, ?_⟩
  · haveI : IsTotal StatEntry (fun a b => b.population_num ≤ a.population_num) :=
      ⟨fun a b => le_total b.population_num a.population_num⟩
    haveI : IsTrans StatEntry (fun a b => b.population_num ≤ a.population_num) :=
      ⟨fun a b c h1 h2 => le_trans h2 h1⟩
    exact List.sorted_insertionSort _ l
  · apply insertionSort_filter
    intro a b hpa hr
    have hak : a.population_num = k := by simpa using hpa
    have hlt : a.population_num < b.population_num := lt_of_not_le hr
    have hbk : b.population_num ≠ k := by
      rw [← hak]
      exact ne_of_gt hlt
    simpa using hbk

/-! ## C6: integer-style Formatter vs Extractor -/

/-- Taking while `p` holds walks through a prefix on which `p` always
holds. -/
theorem takeWhile_all_append (p : Char → Bool) :
    ∀ l1 l2 : List Char, (∀ c ∈ l1, p c = true) →
      (l1 ++ l2).takeWhile p = l1 ++ l2.takeWhile p
  | [], _, _ => rfl
  | c :: l1, l2, h => by
    have hc : p c = true := h c (List.mem_cons_self c l1)
    simp only [List.cons_append, List.takeWhile_cons, hc, if_true]
    rw [takeWhile_all_append p l1 l2 (fun x hx => h x (List.mem_cons_of_mem c hx))]

/-- Dropping while `p` holds crosses a prefix on which `p` always
holds. -/
theorem dropWhile_all_append (p : Char → Bool) :
    ∀ l1 l2 : List Char, (∀ c ∈ l1, p c = true) →
      (l1 ++ l2).dropWhile p = l2.dropWhile p
  | [], _, _ => rfl
  | c :: l1, l2, h => by
    have hc : p c = true := h c (List.mem_cons_self c l1)
    simp only [List.cons_append, List.dropWhile_cons, hc, if_true]
    exact dropWhile_all_append p l1 l2 (fun x hx => h x (List.mem_cons_of_mem c hx))

/-- A digit character is not a dot. -/
theorem digit_not_dot (c : Char) (h : c.isDigit = true) : (c == '.') = false := by
  cases hb : c == '.'
  · rfl
  · exact absurd (beq_iff_eq.mp hb ▸ h) (by decide)

/-- Structural facts about the token returned by the first-number scan:
its integer digits are a non-empty run of digits, its fractional digits
are digits, and without a dot there are no fractional digits. -/
theorem firstNumberToken_spec : ∀ (cs : List Char) (t : NumToken),
    firstNumberToken cs = some t →
    (∀ c ∈ t.intDigits, c.isDigit = true) ∧ t.intDigits ≠ [] ∧
    (∀ c ∈ t.fracDigits, c.isDigit = true) ∧ (t.hasDot = false → t.fracDigits = [])
  | [], t, h => by simp [firstNumberToken] at h
  | c :: cs, t, h => by
    by_cases hc : c.isDigit = true
    · rw [firstNumberToken] at h
      simp only [hc, if_true] at h
      have htake : (c :: cs).takeWhile Char.isDigit = c :: cs.takeWhile Char.isDigit := by
        simp [List.takeWhile_cons, hc]
      split at h
      · cases h
        refine ⟨fun x hx => List.mem_takeWhile_imp hx, ?_,
          fun x hx => List.mem_takeWhile_imp hx,
          fun hd => absurd (show true = false from hd) (by decide)⟩
        dsimp only
        rw [htake]
        exact List.cons_ne_nil c (cs.takeWhile Char.isDigit)
      · cases h
        refine ⟨fun x hx => List.mem_takeWhile_imp hx, ?_,
          fun x hx => absurd hx (List.not_mem_nil x), fun hd => rfl⟩
        dsimp only
        rw [htake]
        exact List.cons_ne_nil c (cs.takeWhile Char.isDigit)
    · rw [firstNumberToken] at h
      simp only [hc, if_false] at h
      exact firstNumberToken_spec cs t h

/-- Python `float` applied to exactly the characters of a scanned token
parses successfully and returns the token's value. -/
theorem parsePyFloat_token (t : NumToken)
    (hint : ∀ c ∈ t.intDigits, c.isDigit = true) (hne : t.intDigits ≠ [])
    (hfrac : ∀ c ∈ t.fracDigits, c.isDigit = true)
    (hdot : t.hasDot = false → t.fracDigits = []) :
    parsePyFloat t.chars = some t.val := by
  obtain ⟨d1, hd, d2⟩ := t
  simp only at hint hne hfrac hdot
  have hnodot1 : d1.filter (fun c => c == '.') = [] := by
    rw [List.filter_eq_nil_iff]
    intro x hx
    simp [digit_not_dot x (hint x hx)]
  have hnodot2 : d2.filter (fun c => c == '.') = [] := by
    rw [List.filter_eq_nil_iff]
    intro x hx
    simp [digit_not_dot x (hfrac x hx)]
  have hany : d1.any Char.isDigit = true := by
    obtain ⟨c, hc⟩ := List.exists_mem_of_ne_nil d1 hne
    exact List.any_eq_true.mpr ⟨c, hc, hint c hc⟩
  cases hd
  · have hd2 : d2 = [] := hdot rfl
    subst hd2
    have hchars : NumToken.chars ⟨d1, false, []⟩ = d1 := by
      simp [NumToken.chars]
    rw [hchars]
    unfold parsePyFloat
    split
    next =>
      have ht : d1.takeWhile Char.isDigit = d1 := by
        have h0 := takeWhile_all_append Char.isDigit d1 [] hint
        simpa using h0
      have hdp : d1.dropWhile Char.isDigit = [] := by
        have h0 := dropWhile_all_append Char.isDigit d1 [] hint
        simpa using h0
      rw [ht, hdp]
      rfl
    next hcnd =>
      exfalso
      apply hcnd
      refine ⟨hany, ?_, ?_⟩
      · simp [hnodot1]
      · rw [List.all_eq_true]
        intro x hx
        simp [hint x hx]
  · have hchars : NumToken.chars ⟨d1, true, d2⟩ = d1 ++ '.' :: d2 := by
      simp [NumToken.chars]
    rw [hchars]
    unfold parsePyFloat
    split
    next =>
      have hdotd : ('.' : Char).isDigit = false := by decide
      have ht : (d1 ++ '.' :: d2).takeWhile Char.isDigit = d1 := by
        rw [takeWhile_all_append Char.isDigit d1 _ hint]
        simp [List.takeWhile_cons, hdotd]
      have hdp : (d1 ++ '.' :: d2).dropWhile Char.isDigit = '.' :: d2 := by
        rw [dropWhile_all_append Char.isDigit d1 _ hint]
        simp [List.dropWhile_cons, hdotd]
      rw [ht, hdp]
      rfl
    next hcnd =>
      exfalso
      apply hcnd
      refine ⟨?_, ?_, ?_⟩
      · rw [List.any_eq_true] at hany ⊢
        obtain ⟨c, hc, hcd⟩ := hany
        exact ⟨c, List.mem_append_left _ hc, hcd⟩
      · rw [List.filter_append, hnodot1]
        simp [List.filter_cons, hnodot2]
      · rw [List.all_eq_true]
        intro x hx
        rcases List.mem_append.mp hx with hx1 | hx2
        · simp [hint x hx1]
        · rcases List.mem_cons.mp hx2 with hx3 | hx4
          · simp [hx3]
          · simp [hfrac x hx4]

/-- C6 counterexample: on `"1,234 km²"` the integer-style Formatter parses
the concatenation of all digit/dot characters and renders the magnitude
`1234`, while the Extractor yields `1` — the Formatter does not delegate
text inputs to the Extractor. -/
theorem format_int_differs_from_extractor :
    format_int_num "1,234 km²" = some 1234 ∧
    extract_number (.vstr "1,234 km²") = 1 ∧
    format_int_num "1,234 km²" ≠ some (extract_number (.vstr "1,234 km²")) := by
  refine ⟨by decide, by decide, by decide⟩

/-- C6 (amended): the integer-style Formatter parses the concatenation of
all digit and dot characters of a text input, not the Extractor's first
number; it renders the Extractor's magnitude exactly when that
concatenation coincides with the first number scanned by the Extractor
(as it does for text with a single undecorated numeric run), and can
differ otherwise (e.g. on `"1,234 km²"`). -/
theorem format_int_matches_extractor_on_single_run (s : String) (t : NumToken)
    (ht : firstNumberToken s.data = some t)
    (hclean : cleanedDigitsDots s = t.chars) :
    format_int_num s = some (extract_number (.vstr s)) := by
  obtain ⟨hint, hne, hfrac, hdot⟩ := firstNumberToken_spec s.data t ht
  have hs : s ≠ "" := by
    intro h
    subst h
    simp [firstNumberToken] at ht
  have hchars_ne : t.chars ≠ [] := by
    intro h
    exact hne (List.append_eq_nil.mp (List.append_eq_nil.mp h).1).1
  unfold format_int_num
  rw [hclean, if_pos hchars_ne, parsePyFloat_token t hint hne hfrac hdot]
  simp only [extract_number, if_neg hs, ht]

/-- Witness for `format_int_matches_extractor_on_single_run` at the input
`"abc 123.45x"`, whose digit/dot characters are exactly the scanned
number `123.45`. -/
theorem format_int_matches_extractor_on_single_run_witness :
    format_int_num "abc 123.45x" = some (extract_number (.vstr "abc 123.45x")) :=
  format_int_matches_extractor_on_single_run "abc 123.45x"
    ⟨['1', '2', '3'], true, ['4', '5']⟩ (by decide) (by decide)
